import Mathlib

/-!
Verification of the AsyncAF resolution engine (`src/lib/methods/arrays/mapAF.js`,
`src/lib/classes/AsyncAF.js`) against its natural-language specification.

The engine is shallowly embedded: JavaScript values are the inductive `JsVal`
(a settled promise is `JsVal.promise v`, flattening under `jsResolve` the way
`Promise.resolve` flattens thenables); a sparse collection is a
`List (Option JsVal)` with `none` for a hole; deferred settlement points are
made observable through an event trace (`Ev`).  Components of the repository
that are not present in the source tree (`permissiveIsArrayLike`,
`promiseAllWithHoles`, `resolve.js`'s `parallel`/`serial`, the pipeline
wrapper) are modelled from the specification and marked as such; everything
else is translated from `mapAF.js` directly.
-/

/-- A JavaScript value as used by the engine.  `promise v` is a deferred value
that settles to `v`; `arr` is an indexed sequence whose slots may be holes
(`none`); `arrLike` is an array-like record whose entries inside the declared
length may be missing (`none`); `obj` is a plain record such as `{}`. -/
inductive JsVal where
  | undef : JsVal
  | null : JsVal
  | bool : Bool → JsVal
  | num : Int → JsVal
  | str : String → JsVal
  | obj : JsVal
  | arr : List (Option JsVal) → JsVal
  | arrLike : List (Option JsVal) → JsVal
  | promise : JsVal → JsVal

/-- `Promise.resolve` flattening: unwrap nested deferred values down to a
non-promise value.  On non-promises it is the identity (an array keeps its
inner promises untouched, as in JavaScript). -/
def jsResolve : JsVal → JsVal
  | JsVal.promise v => jsResolve v
  | v => v

mutual
/-- Default JavaScript string coercion, as used in the error messages
(`` `${arr}` ``): `null`, `undefined`, booleans, numbers, `[object Object]`
for plain records, comma-joined elements for arrays (holes, `null` and
`undefined` join as empty strings). -/
def jsToString : JsVal → String
  | JsVal.undef => "undefined"
  | JsVal.null => "null"
  | JsVal.bool true => "true"
  | JsVal.bool false => "false"
  | JsVal.num n => toString n
  | JsVal.str s => s
  | JsVal.obj => "[object Object]"
  | JsVal.arrLike _ => "[object Object]"
  | JsVal.promise _ => "[object Promise]"
  | JsVal.arr xs => jsArrJoin xs

def jsArrJoin : List (Option JsVal) → String
  | [] => ""
  | [x] => jsSlotToString x
  | x :: y :: rest => jsSlotToString x ++ "," ++ jsArrJoin (y :: rest)

def jsSlotToString : Option JsVal → String
  | none => ""
  | some JsVal.undef => ""
  | some JsVal.null => ""
  | some v => jsToString v
end

/-- The engine's error kind: a JavaScript `TypeError` carrying its message. -/
inductive JsErr where
  | typeError : String → JsErr
deriving DecidableEq

/-- The callable argument of an operation: either a non-function value (the
code checks `typeof callback !== 'function'`) or a function of
(thisArg, element, index, collection view). -/
inductive Callable where
  | notFn : JsVal → Callable
  | fn : (JsVal → JsVal → Nat → List (Option JsVal) → JsVal) → Callable

/-- Observable settlement / invocation events, used to state temporal claims:
`resolveElem i v` — the element at index `i` settled to `v`;
`invoke i v` — the callable was invoked with element value `v` at index `i`;
`resolveResult i v` — the callable's returned deferred value settled to `v`. -/
inductive Ev where
  | resolveElem : Nat → JsVal → Ev
  | invoke : Nat → JsVal → Ev
  | resolveResult : Nat → JsVal → Ev

/-- Modelled from the spec: `permissiveIsArrayLike`
(`src/lib/methods/_internal/permissiveIsArrayLike.js` is not under `src/`).
Spec §4.1: true iff the value is an indexed sequence, a text sequence, or an
array-like record with a valid length; false for null/absent/other
non-indexable values. -/
def permissiveIsArrayLike : JsVal → Bool
  | JsVal.arr _ => true
  | JsVal.str _ => true
  | JsVal.arrLike _ => true
  | _ => false

/-- Modelled from the spec: the Collection Normalizer (spec §4.2).  Indexed
sequences keep their own gaps as holes; text sequences are dense, one slot per
character; array-like records are treated as fully dense, a missing own entry
reading as `undefined`. -/
def toView : JsVal → List (Option JsVal)
  | JsVal.arr xs => xs
  | JsVal.str s => s.data.map (fun c => some (JsVal.str (String.mk [c])))
  | JsVal.arrLike xs => xs.map (fun x => some (x.getD JsVal.undef))
  | _ => []

/-- Modelled from the spec: the `parallel` resolver of
`src/lib/methods/_internal/resolve.js` (not under `src/`).  Spec §4.4: for
every PRESENT slot, resolve the element's own deferredness, invoke the
callable with (resolvedElement, index, the original unresolved view) bound to
the invocation context, then resolve the callable's returned deferred value;
ABSENT slots are skipped; assembly preserves the hole pattern and index
order.  The returned trace lists the three events of each slot in slot order;
since parallel interleaving is unconstrained, theorems only use
interleaving-invariant facts of this trace (which events occur, per-slot
content). -/
def parallelMapGo (f : JsVal → JsVal → Nat → List (Option JsVal) → JsVal)
    (thisArg : JsVal) (orig : List (Option JsVal)) :
    List (Option JsVal) → Nat → List (Option JsVal) × List Ev
  | [], _ => ([], [])
  | none :: rest, n =>
      let r := parallelMapGo f thisArg orig rest (n + 1)
      (none :: r.1, r.2)
  | some v :: rest, n =>
      let rv := jsResolve v
      let rr := jsResolve (f thisArg rv n orig)
      let r := parallelMapGo f thisArg orig rest (n + 1)
      (some rr :: r.1, Ev.resolveElem n rv :: Ev.invoke n rv :: Ev.resolveResult n rr :: r.2)

/-- The parallel resolver on a whole view. -/
def parallelMap (view : List (Option JsVal))
    (f : JsVal → JsVal → Nat → List (Option JsVal) → JsVal) (thisArg : JsVal) :
    List (Option JsVal) × List Ev :=
  parallelMapGo f thisArg view view 0

/-- Modelled from the spec: the `serial` element resolver of
`src/lib/methods/_internal/resolve.js` (not under `src/`).  It resolves each
PRESENT element strictly in ascending index order, one settling before the
next starts, preserving holes (spec §4.5 first phase); `mapAF` then calls it
as `serial(arr).then(arr => arr.reduce(...))`, so all of its work completes
before any callable invocation. -/
def serialResolveGo : List (Option JsVal) → Nat → List (Option JsVal) × List Ev
  | [], _ => ([], [])
  | none :: rest, n =>
      let r := serialResolveGo rest (n + 1)
      (none :: r.1, r.2)
  | some v :: rest, n =>
      let rv := jsResolve v
      let r := serialResolveGo rest (n + 1)
      (some rv :: r.1, Ev.resolveElem n rv :: r.2)

/-- `Array.prototype.reduce` with the index argument: holes are skipped, the
accumulator is threaded left to right. -/
def jsReduceIdx {β : Type} (f : β → JsVal → Nat → β) :
    List (Option JsVal) → Nat → β → β
  | [], _, acc => acc
  | none :: rest, n, acc => jsReduceIdx f rest (n + 1) acc
  | some v :: rest, n, acc => jsReduceIdx f rest (n + 1) (f acc v n)

/-- One step of the serial branch of `mapAF` (`mapAF.js` lines 59–62): the
reduce callback sets `map[i] = Promise.resolve(callback.call(thisArg, el, i,
arr))` and re-awaits the accumulator with `promiseAllWithHoles` (the
Hole-Aware Combinator, modelled from spec §4.3 as awaiting every present
slot), so the stored entry is the resolved callable result.  Note the `arr`
received here is the reduce's own array argument — the element-resolved
array, which shadows the original view. -/
def serialMapStep (f : JsVal → JsVal → Nat → List (Option JsVal) → JsVal)
    (thisArg : JsVal) (resolvedArr : List (Option JsVal)) :
    List (Option JsVal) × List Ev → JsVal → Nat → List (Option JsVal) × List Ev :=
  fun acc el i =>
    let rr := jsResolve (f thisArg el i resolvedArr)
    (acc.1.set i (some rr), acc.2 ++ [Ev.invoke i el, Ev.resolveResult i rr])

/-- The serial branch of `mapAF` (`mapAF.js` lines 59–62): resolve all
elements with `serial`, then reduce over the resolved array starting from
`Array(arr.length >>> 0)` (all holes), each step fully completing before the
next starts. -/
def serialMapAF (view : List (Option JsVal))
    (f : JsVal → JsVal → Nat → List (Option JsVal) → JsVal) (thisArg : JsVal) :
    List (Option JsVal) × List Ev :=
  let r := serialResolveGo view 0
  jsReduceIdx (serialMapStep f thisArg r.1) r.1 0 (List.replicate r.1.length none, r.2)

/-- The body of `mapAF` (`mapAF.js` lines 52–65), run on the settled value of
the previous stage: reject ineligible shapes, then reject a non-function
callable, then dispatch on the resolution mode. -/
def mapAFBody (inSeries : Bool) (arr0 : JsVal) (cb : Callable) (thisArg : JsVal) :
    Except JsErr (List (Option JsVal)) × List Ev :=
  if permissiveIsArrayLike arr0 then
    match cb with
    | Callable.notFn v =>
        (Except.error (JsErr.typeError (jsToString v ++ " is not a function")), [])
    | Callable.fn f =>
        if inSeries then
          let r := serialMapAF (toView arr0) f thisArg
          (Except.ok r.1, r.2)
        else
          let r := parallelMap (toView arr0) f thisArg
          (Except.ok r.1, r.2)
  else
    (Except.error (JsErr.typeError
      ("mapAF cannot be called on " ++ jsToString arr0
        ++ ", only on an Array or array-like Object")), [])

/-- `mapAF` on a settled input: `this.then(arr => ...)` first resolves the
stage's own deferredness, then runs the body. -/
def mapAF (inSeries : Bool) (input : JsVal) (cb : Callable) (thisArg : JsVal) :
    Except JsErr (List (Option JsVal)) × List Ev :=
  mapAFBody inSeries (jsResolve input) cb thisArg

/-- One step of the serial branch of `forEachAF` (`mapAF.js` lines 107–109):
the reduce chains `expr.then(() => Promise.resolve(callback.call(thisArg, el,
i, arr)))`, discarding values but sequencing invocations; `arr` is again the
reduce's element-resolved array. -/
def serialForEachStep (f : JsVal → JsVal → Nat → List (Option JsVal) → JsVal)
    (thisArg : JsVal) (resolvedArr : List (Option JsVal)) :
    JsVal × List Ev → JsVal → Nat → JsVal × List Ev :=
  fun acc el i =>
    let rr := jsResolve (f thisArg el i resolvedArr)
    (rr, acc.2 ++ [Ev.invoke i el, Ev.resolveResult i rr])

/-- The serial branch of `forEachAF` (`mapAF.js` lines 107–109). -/
def serialForEachAF (view : List (Option JsVal))
    (f : JsVal → JsVal → Nat → List (Option JsVal) → JsVal) (thisArg : JsVal) :
    JsVal × List Ev :=
  let r := serialResolveGo view 0
  jsReduceIdx (serialForEachStep f thisArg r.1) r.1 0 (JsVal.undef, r.2)

/-- The body of `forEachAF` (`mapAF.js` lines 100–113): same validation as
`mapAF`, then the selected branch, then `.then(() => {})` resolves the stage
to `undefined`. -/
def forEachAFBody (inSeries : Bool) (arr0 : JsVal) (cb : Callable) (thisArg : JsVal) :
    Except JsErr JsVal × List Ev :=
  if permissiveIsArrayLike arr0 then
    match cb with
    | Callable.notFn v =>
        (Except.error (JsErr.typeError (jsToString v ++ " is not a function")), [])
    | Callable.fn f =>
        if inSeries then
          let r := serialForEachAF (toView arr0) f thisArg
          (Except.ok JsVal.undef, r.2)
        else
          let r := parallelMap (toView arr0) f thisArg
          (Except.ok JsVal.undef, r.2)
  else
    (Except.error (JsErr.typeError
      ("forEachAF cannot be called on " ++ jsToString arr0
        ++ ", only on an Array or array-like Object")), [])

/-- `forEachAF` on a settled input. -/
def forEachAF (inSeries : Bool) (input : JsVal) (cb : Callable) (thisArg : JsVal) :
    Except JsErr JsVal × List Ev :=
  forEachAFBody inSeries (jsResolve input) cb thisArg

/-- Modelled from the spec: a Pipeline Stage of the wrapper
(`src/lib/classes/AsyncAfWrapper.js` is not under `src/`).  Spec §3/§4.6: a
stage owns a deferred value (here: its settled outcome) and an immutable
resolution mode. -/
structure Pipeline where
  value : Except JsErr JsVal
  inSeries : Bool

/-- Modelled from the spec: pipeline construction (spec §4.6): accepts any
value with no validation at construction time; the default mode is
parallel. -/
def AsyncAFmk (v : JsVal) : Pipeline :=
  { value := Except.ok v, inSeries := false }

/-- Chaining `mapAF` onto a stage: the whole body is `return this.then(...)`,
so the chaining call itself only builds a new stage — `then` never throws
synchronously; the outer `Except` is the synchronous outcome of the chaining
call and is `ok` by the code's structure.  A rejected predecessor is
forwarded without running classifier or resolver. -/
def mapAFchain (p : Pipeline) (cb : Callable) (thisArg : JsVal) : Except JsErr Pipeline :=
  Except.ok
    { value :=
        match p.value with
        | Except.error e => Except.error e
        | Except.ok v => Except.map JsVal.arr (mapAFBody p.inSeries (jsResolve v) cb thisArg).1,
      inSeries := p.inSeries }

/-- Map a function over the present slots of a view, holes untouched, indices
starting at `n`.  Closed form shared by both resolvers' outputs. -/
def mapSlots (g : Nat → JsVal → JsVal) : List (Option JsVal) → Nat → List (Option JsVal)
  | [], _ => []
  | none :: rest, n => none :: mapSlots g rest (n + 1)
  | some v :: rest, n => some (g n v) :: mapSlots g rest (n + 1)

/-- The (index, value) pairs of the present slots of a view, in ascending
index order, indices starting at `n`. -/
def presentPairs : List (Option JsVal) → Nat → List (Nat × JsVal)
  | [], _ => []
  | none :: rest, n => presentPairs rest (n + 1)
  | some v :: rest, n => (n, v) :: presentPairs rest (n + 1)

/-- Concatenate one block of events per present slot. -/
def traceBlocks (mk : Nat → JsVal → List Ev) : List (Nat × JsVal) → List Ev
  | [] => []
  | p :: rest => mk p.1 p.2 ++ traceBlocks mk rest

/-- The (index, element) arguments of the callable invocations recorded in a
trace, in trace order. -/
def invokePairs : List Ev → List (Nat × JsVal)
  | [] => []
  | Ev.invoke i v :: rest => (i, v) :: invokePairs rest
  | _ :: rest => invokePairs rest

/-- The slot index an event belongs to. -/
def evIndex : Ev → Nat
  | Ev.resolveElem i _ => i
  | Ev.invoke i _ => i
  | Ev.resolveResult i _ => i

/-- Number of present (non-hole) slots of a view. -/
def countPresent (xs : List (Option JsVal)) : Nat :=
  (xs.filter Option.isSome).length

/-- Boolean "the list of naturals is nondecreasing". -/
def nondecreasing : List Nat → Bool
  | [] => true
  | [_] => true
  | a :: b :: rest => Nat.ble a b && nondecreasing (b :: rest)

/-- Boolean "the list of naturals is strictly increasing". -/
def strictlyAscending : List Nat → Bool
  | [] => true
  | [_] => true
  | a :: b :: rest => Nat.blt a b && strictlyAscending (b :: rest)

/-- Formalisation of the step-interleaving part of the serial-ordering claim:
if present slots are processed strictly ascending and the whole step of index
`i` (element resolve, invoke, result resolve) completes before any part of
the step of index `i + 1` begins, then the slot indices of the trace's events
are nondecreasing. -/
def stepsDisjointAscending (tr : List Ev) : Bool :=
  nondecreasing (tr.map evIndex)

/-- A value with no deferredness at the top: `jsResolve` leaves it unchanged. -/
def isConcrete : JsVal → Bool
  | JsVal.promise _ => false
  | _ => true

/-- Every present slot of the view holds a concrete (non-deferred) value. -/
def slotsConcrete (xs : List (Option JsVal)) : Bool :=
  xs.all (fun s => isConcrete (s.getD JsVal.undef))

/-- Replace every present element by an already-settled deferred value of
itself. -/
def promMap (xs : List (Option JsVal)) : List (Option JsVal) :=
  xs.map (Option.map JsVal.promise)

/-- Lift a callable that ignores the collection argument. -/
def lift3 (g : JsVal → JsVal → Nat → JsVal) :
    JsVal → JsVal → Nat → List (Option JsVal) → JsVal :=
  fun t v i _ => g t v i

/-- The collection argument the callable receives in each mode: the original
view in parallel mode, the element-resolved view in serial mode (the serial
reduce's `arr` parameter shadows the original view with the output of
`serial(arr)`). -/
def thirdArg (m : Bool) (view : List (Option JsVal)) : List (Option JsVal) :=
  if m then mapSlots (fun _ v => jsResolve v) view 0 else view

/-- JavaScript truthiness. -/
def jsTruthy : JsVal → Bool
  | JsVal.undef => false
  | JsVal.null => false
  | JsVal.bool b => b
  | JsVal.num n => decide (n ≠ 0)
  | JsVal.str s => decide (s ≠ "")
  | _ => true

/-- The spec's sparse example collection `[, ,1, ,2, , ,]`: length 7, present
values 1 and 2 at indices 2 and 4. -/
def sparse7 : List (Option JsVal) :=
  [none, none, some (JsVal.num 1), none, some (JsVal.num 2), none, none]

/-- The spec's doubling callable `n => n * 2` (JS `*` on the numeric values
it is exercised on). -/
def dblFn : JsVal → JsVal → Nat → List (Option JsVal) → JsVal :=
  fun _t n _i _a =>
    match n with
    | JsVal.num x => JsVal.num (2 * x)
    | v => v

/-- The identity callable `v => v`. -/
def fIdent : JsVal → JsVal → Nat → List (Option JsVal) → JsVal :=
  fun _t v _i _a => v

/-- A callable that returns the collection argument it received,
`(v, i, arr) => arr`, used to observe which view the engine passes. -/
def fArrObs : JsVal → JsVal → Nat → List (Option JsVal) → JsVal :=
  fun _t _v _i a => JsVal.arr a

/-- A dense two-element collection of deferred values. -/
def view2 : List (Option JsVal) :=
  [some (JsVal.promise (JsVal.num 1)), some (JsVal.promise (JsVal.num 2))]

/-- A dense one-element collection holding one deferred value. -/
def pm1 : List (Option JsVal) :=
  [some (JsVal.promise (JsVal.num 1))]

/-- The dense collection `[1, 2, 3]`. -/
def nums123 : List (Option JsVal) :=
  [some (JsVal.num 1), some (JsVal.num 2), some (JsVal.num 3)]

/-- The spec's example callable `(n, i, arr) => n + (arr[i - 1] || 0)` (JS
`+` on the numeric case it is exercised on; for `i = 0`, `arr[-1]` is
`undefined`, which is falsy, so the `|| 0` fallback applies, as it does for
a hole or a falsy element). -/
def c7fn : JsVal → JsVal → Nat → List (Option JsVal) → JsVal :=
  fun _t n i a =>
    let prev :=
      if i = 0 then JsVal.num 0
      else
        match a.getD (i - 1) none with
        | some v => if jsTruthy v then v else JsVal.num 0
        | none => JsVal.num 0
    match n, prev with
    | JsVal.num x, JsVal.num y => JsVal.num (x + y)
    | nv, _ => nv

lemma mapSlots_length (g : Nat → JsVal → JsVal) :
    ∀ (xs : List (Option JsVal)) (n : Nat), (mapSlots g xs n).length = xs.length := by
  intro xs
  induction xs with
  | nil => intro n; rfl
  | cons hd tl ih => intro n; cases hd <;> simp [mapSlots, ih]

lemma mapSlots_getD (g : Nat → JsVal → JsVal) :
    ∀ (xs : List (Option JsVal)) (n i : Nat),
      (mapSlots g xs n).getD i none = Option.map (g (n + i)) (xs.getD i none) := by
  intro xs
  induction xs with
  | nil => intro n i; simp [mapSlots]
  | cons hd tl ih =>
      intro n i
      cases hd with
      | none =>
          cases i with
          | zero => simp [mapSlots]
          | succ j =>
              have harith : n + 1 + j = n + (j + 1) := by omega
              simp only [mapSlots, List.getD_cons_succ, ih, harith]
      | some v =>
          cases i with
          | zero => simp [mapSlots]
          | succ j =>
              have harith : n + 1 + j = n + (j + 1) := by omega
              simp only [mapSlots, List.getD_cons_succ, ih, harith]

lemma mapSlots_comp (g h : Nat → JsVal → JsVal) :
    ∀ (xs : List (Option JsVal)) (n : Nat),
      mapSlots g (mapSlots h xs n) n = mapSlots (fun i v => g i (h i v)) xs n := by
  intro xs
  induction xs with
  | nil => intro n; rfl
  | cons hd tl ih => intro n; cases hd <;> simp [mapSlots, ih]

lemma presentPairs_mapSlots (h : Nat → JsVal → JsVal) :
    ∀ (xs : List (Option JsVal)) (n : Nat),
      presentPairs (mapSlots h xs n) n
        = (presentPairs xs n).map (fun p => (p.1, h p.1 p.2)) := by
  intro xs
  induction xs with
  | nil => intro n; rfl
  | cons hd tl ih => intro n; cases hd <;> simp [mapSlots, presentPairs, ih]

lemma presentPairs_length :
    ∀ (xs : List (Option JsVal)) (n : Nat),
      (presentPairs xs n).length = countPresent xs := by
  intro xs
  induction xs with
  | nil => intro n; rfl
  | cons hd tl ih =>
      intro n
      cases hd <;> simp [presentPairs, countPresent, List.filter, ih]

lemma presentPairs_fst_lower :
    ∀ (xs : List (Option JsVal)) (n : Nat) (p : Nat × JsVal),
      p ∈ presentPairs xs n → n ≤ p.1 := by
  intro xs
  induction xs with
  | nil => intro n p hp; simp [presentPairs] at hp
  | cons hd tl ih =>
      intro n p hp
      cases hd with
      | none => exact Nat.le_of_succ_le (ih (n + 1) p hp)
      | some v =>
          simp only [presentPairs, List.mem_cons] at hp
          rcases hp with h | h
          · subst h; exact Nat.le_refl n
          · exact Nat.le_of_succ_le (ih (n + 1) p h)

lemma strictlyAscending_cons (n : Nat) (L : List Nat)
    (hL : strictlyAscending L = true) (hlow : ∀ m ∈ L, n < m) :
    strictlyAscending (n :: L) = true := by
  cases L with
  | nil => rfl
  | cons b bs =>
      have hb : n < b := hlow b (List.mem_cons_self b bs)
      simp [strictlyAscending, hL, Nat.blt_eq, hb]

lemma presentPairs_fst_ascending :
    ∀ (xs : List (Option JsVal)) (n : Nat),
      strictlyAscending ((presentPairs xs n).map Prod.fst) = true := by
  intro xs
  induction xs with
  | nil => intro n; rfl
  | cons hd tl ih =>
      intro n
      cases hd with
      | none => exact ih (n + 1)
      | some v =>
          simp only [presentPairs, List.map_cons]
          refine strictlyAscending_cons n _ (ih (n + 1)) ?_
          intro m hm
          rcases List.mem_map.mp hm with ⟨p, hp, hfst⟩
          have := presentPairs_fst_lower tl (n + 1) p hp
          omega

lemma invokePairs_append :
    ∀ (t1 t2 : List Ev), invokePairs (t1 ++ t2) = invokePairs t1 ++ invokePairs t2 := by
  intro t1
  induction t1 with
  | nil => intro t2; rfl
  | cons e rest ih =>
      intro t2
      cases e <;> simp [invokePairs, ih]

lemma invokePairs_resolveElems (g : Nat × JsVal → JsVal) :
    ∀ (P : List (Nat × JsVal)),
      invokePairs (P.map (fun p => Ev.resolveElem p.1 (g p))) = [] := by
  intro P
  induction P with
  | nil => rfl
  | cons p rest ih => simp [invokePairs, ih]

lemma invokePairs_blocks_pair (g : Nat → JsVal → JsVal) :
    ∀ (P : List (Nat × JsVal)),
      invokePairs (traceBlocks (fun i v => [Ev.invoke i v, Ev.resolveResult i (g i v)]) P) = P := by
  intro P
  induction P with
  | nil => rfl
  | cons p rest ih => simp [traceBlocks, invokePairs, ih]

lemma invokePairs_blocks_triple (g : Nat → JsVal → JsVal) :
    ∀ (P : List (Nat × JsVal)),
      invokePairs (traceBlocks
        (fun i v => [Ev.resolveElem i v, Ev.invoke i v, Ev.resolveResult i (g i v)]) P) = P := by
  intro P
  induction P with
  | nil => rfl
  | cons p rest ih => simp [traceBlocks, invokePairs, ih]

lemma parallelMapGo_fst (f : JsVal → JsVal → Nat → List (Option JsVal) → JsVal)
    (t : JsVal) (orig : List (Option JsVal)) :
    ∀ (xs : List (Option JsVal)) (n : Nat),
      (parallelMapGo f t orig xs n).1
        = mapSlots (fun i v => jsResolve (f t (jsResolve v) i orig)) xs n := by
  intro xs
  induction xs with
  | nil => intro n; rfl
  | cons hd tl ih => intro n; cases hd <;> simp [parallelMapGo, mapSlots, ih]

lemma parallelMapGo_snd (f : JsVal → JsVal → Nat → List (Option JsVal) → JsVal)
    (t : JsVal) (orig : List (Option JsVal)) :
    ∀ (xs : List (Option JsVal)) (n : Nat),
      (parallelMapGo f t orig xs n).2
        = traceBlocks
            (fun i v => [Ev.resolveElem i v, Ev.invoke i v,
              Ev.resolveResult i (jsResolve (f t v i orig))])
            ((presentPairs xs n).map (fun p => (p.1, jsResolve p.2))) := by
  intro xs
  induction xs with
  | nil => intro n; rfl
  | cons hd tl ih =>
      intro n
      cases hd <;> simp [parallelMapGo, presentPairs, traceBlocks, ih]

lemma serialResolveGo_fst :
    ∀ (xs : List (Option JsVal)) (n : Nat),
      (serialResolveGo xs n).1 = mapSlots (fun _ v => jsResolve v) xs n := by
  intro xs
  induction xs with
  | nil => intro n; rfl
  | cons hd tl ih => intro n; cases hd <;> simp [serialResolveGo, mapSlots, ih]

lemma serialResolveGo_snd :
    ∀ (xs : List (Option JsVal)) (n : Nat),
      (serialResolveGo xs n).2
        = (presentPairs xs n).map (fun p => Ev.resolveElem p.1 (jsResolve p.2)) := by
  intro xs
  induction xs with
  | nil => intro n; rfl
  | cons hd tl ih => intro n; cases hd <;> simp [serialResolveGo, presentPairs, ih]

lemma set_at_append_len {α : Type} :
    ∀ (B : List α) (x y : α) (Y : List α), (B ++ y :: Y).set B.length x = B ++ x :: Y := by
  intro B
  induction B with
  | nil => intro x y Y; rfl
  | cons b bs ih => intro x y Y; simp [List.set, ih]

lemma jsReduceIdx_serialMap_fst (f : JsVal → JsVal → Nat → List (Option JsVal) → JsVal)
    (t : JsVal) (R : List (Option JsVal)) :
    ∀ (xs B C : List (Option JsVal)) (tr : List Ev),
      (jsReduceIdx (serialMapStep f t R) xs B.length
          (B ++ (List.replicate xs.length none ++ C), tr)).1
        = B ++ (mapSlots (fun i v => jsResolve (f t v i R)) xs B.length ++ C) := by
  intro xs
  induction xs with
  | nil => intro B C tr; simp [jsReduceIdx, mapSlots]
  | cons hd tl ih =>
      intro B C tr
      cases hd with
      | none =>
          have hcons : B ++ (List.replicate (none :: tl : List (Option JsVal)).length none ++ C)
              = (B ++ [none]) ++ (List.replicate tl.length none ++ C) := by
            simp [List.replicate_succ]
          have hlen : (B ++ [(none : Option JsVal)]).length = B.length + 1 := by simp
          calc (jsReduceIdx (serialMapStep f t R) (none :: tl) B.length
                  (B ++ (List.replicate (none :: tl : List (Option JsVal)).length none ++ C), tr)).1
              = (jsReduceIdx (serialMapStep f t R) tl (B.length + 1)
                  ((B ++ [none]) ++ (List.replicate tl.length none ++ C), tr)).1 := by
                rw [jsReduceIdx, hcons]
            _ = (B ++ [none]) ++ (mapSlots (fun i v => jsResolve (f t v i R)) tl (B.length + 1) ++ C) := by
                rw [← hlen, ih]
            _ = B ++ (mapSlots (fun i v => jsResolve (f t v i R)) (none :: tl) B.length ++ C) := by
                simp [mapSlots]
      | some v =>
          have hstep : serialMapStep f t R
                (B ++ (List.replicate (some v :: tl : List (Option JsVal)).length none ++ C), tr) v B.length
              = ((B ++ [some (jsResolve (f t v B.length R))]) ++ (List.replicate tl.length none ++ C),
                 tr ++ [Ev.invoke B.length v,
                   Ev.resolveResult B.length (jsResolve (f t v B.length R))]) := by
            simp only [serialMapStep, List.length_cons, List.replicate_succ, List.cons_append]
            rw [set_at_append_len B (some (jsResolve (f t v B.length R))) none
              (List.replicate tl.length none ++ C)]
            simp
          have hlen : (B ++ [some (jsResolve (f t v B.length R))]).length = B.length + 1 := by simp
          calc (jsReduceIdx (serialMapStep f t R) (some v :: tl) B.length
                  (B ++ (List.replicate (some v :: tl : List (Option JsVal)).length none ++ C), tr)).1
              = (jsReduceIdx (serialMapStep f t R) tl (B.length + 1)
                  ((B ++ [some (jsResolve (f t v B.length R))]) ++ (List.replicate tl.length none ++ C),
                   tr ++ [Ev.invoke B.length v,
                     Ev.resolveResult B.length (jsResolve (f t v B.length R))])).1 := by
                rw [jsReduceIdx, hstep]
            _ = (B ++ [some (jsResolve (f t v B.length R))])
                  ++ (mapSlots (fun i v => jsResolve (f t v i R)) tl (B.length + 1) ++ C) := by
                rw [← hlen, ih]
            _ = B ++ (mapSlots (fun i v => jsResolve (f t v i R)) (some v :: tl) B.length ++ C) := by
                simp [mapSlots]

lemma jsReduceIdx_serialMap_snd (f : JsVal → JsVal → Nat → List (Option JsVal) → JsVal)
    (t : JsVal) (R : List (Option JsVal)) :
    ∀ (xs : List (Option JsVal)) (n : Nat) (A : List (Option JsVal)) (tr : List Ev),
      (jsReduceIdx (serialMapStep f t R) xs n (A, tr)).2
        = tr ++ traceBlocks
            (fun i v => [Ev.invoke i v, Ev.resolveResult i (jsResolve (f t v i R))])
            (presentPairs xs n) := by
  intro xs
  induction xs with
  | nil => intro n A tr; simp [jsReduceIdx, presentPairs, traceBlocks]
  | cons hd tl ih =>
      intro n A tr
      cases hd with
      | none => simp [jsReduceIdx, presentPairs, ih]
      | some v => simp [jsReduceIdx, serialMapStep, presentPairs, traceBlocks, ih]

lemma serialMapAF_fst (view : List (Option JsVal))
    (f : JsVal → JsVal → Nat → List (Option JsVal) → JsVal) (t : JsVal) :
    (serialMapAF view f t).1
      = mapSlots (fun i v => jsResolve (f t (jsResolve v) i
          (mapSlots (fun _ v => jsResolve v) view 0))) view 0 := by
  have h0 : (serialResolveGo view 0).1 = mapSlots (fun _ v => jsResolve v) view 0 :=
    serialResolveGo_fst view 0
  have h := jsReduceIdx_serialMap_fst f t (serialResolveGo view 0).1
    (serialResolveGo view 0).1 [] [] (serialResolveGo view 0).2
  simp only [List.length_nil, List.nil_append, List.append_nil] at h
  rw [serialMapAF, h, h0, mapSlots_comp]

lemma serialMapAF_snd (view : List (Option JsVal))
    (f : JsVal → JsVal → Nat → List (Option JsVal) → JsVal) (t : JsVal) :
    (serialMapAF view f t).2
      = (presentPairs view 0).map (fun p => Ev.resolveElem p.1 (jsResolve p.2))
        ++ traceBlocks
            (fun i v => [Ev.invoke i v, Ev.resolveResult i (jsResolve (f t v i
              (mapSlots (fun _ v => jsResolve v) view 0)))])
            ((presentPairs view 0).map (fun p => (p.1, jsResolve p.2))) := by
  have h := jsReduceIdx_serialMap_snd f t (serialResolveGo view 0).1
    (serialResolveGo view 0).1 0 (List.replicate (serialResolveGo view 0).1.length none)
    (serialResolveGo view 0).2
  rw [serialMapAF, h, serialResolveGo_snd, serialResolveGo_fst, presentPairs_mapSlots]

lemma parallelMap_fst (view : List (Option JsVal))
    (f : JsVal → JsVal → Nat → List (Option JsVal) → JsVal) (t : JsVal) :
    (parallelMap view f t).1
      = mapSlots (fun i v => jsResolve (f t (jsResolve v) i view)) view 0 :=
  parallelMapGo_fst f t view view 0

lemma parallelMap_snd (view : List (Option JsVal))
    (f : JsVal → JsVal → Nat → List (Option JsVal) → JsVal) (t : JsVal) :
    (parallelMap view f t).2
      = traceBlocks
          (fun i v => [Ev.resolveElem i v, Ev.invoke i v,
            Ev.resolveResult i (jsResolve (f t v i view))])
          ((presentPairs view 0).map (fun p => (p.1, jsResolve p.2))) :=
  parallelMapGo_snd f t view view 0

lemma mapAF_arr_fn (m : Bool) (view : List (Option JsVal))
    (f : JsVal → JsVal → Nat → List (Option JsVal) → JsVal) (t : JsVal) :
    mapAF m (JsVal.arr view) (Callable.fn f) t
      = if m then (Except.ok (serialMapAF view f t).1, (serialMapAF view f t).2)
        else (Except.ok (parallelMap view f t).1, (parallelMap view f t).2) := by
  cases m <;> rfl

lemma mapAF_fst_closed (m : Bool) (view : List (Option JsVal))
    (f : JsVal → JsVal → Nat → List (Option JsVal) → JsVal) (t : JsVal) :
    (mapAF m (JsVal.arr view) (Callable.fn f) t).1
      = Except.ok (mapSlots
          (fun i v => jsResolve (f t (jsResolve v) i (thirdArg m view))) view 0) := by
  cases m
  · rw [mapAF_arr_fn]
    simp [parallelMap_fst, thirdArg]
  · rw [mapAF_arr_fn]
    simp [serialMapAF_fst, thirdArg]

lemma mapAF_snd_invokePairs (m : Bool) (view : List (Option JsVal))
    (f : JsVal → JsVal → Nat → List (Option JsVal) → JsVal) (t : JsVal) :
    invokePairs (mapAF m (JsVal.arr view) (Callable.fn f) t).2
      = (presentPairs view 0).map (fun p => (p.1, jsResolve p.2)) := by
  cases m
  · rw [mapAF_arr_fn]
    simp only [Bool.false_eq_true, if_false]
    rw [parallelMap_snd, invokePairs_blocks_triple]
  · rw [mapAF_arr_fn]
    simp only [if_true]
    rw [serialMapAF_snd, invokePairs_append,
      invokePairs_resolveElems (fun p => jsResolve p.2), invokePairs_blocks_pair]
    simp

lemma jsResolve_promise (v : JsVal) : jsResolve (JsVal.promise v) = jsResolve v := rfl

lemma jsResolve_concrete (v : JsVal) (h : isConcrete v = true) : jsResolve v = v := by
  cases v <;> simp [isConcrete] at h <;> rfl

lemma mapSlots_resolve_concrete :
    ∀ (xs : List (Option JsVal)) (n : Nat), slotsConcrete xs = true →
      mapSlots (fun _ v => jsResolve v) xs n = xs := by
  intro xs
  induction xs with
  | nil => intro n _; rfl
  | cons hd tl ih =>
      intro n h
      simp only [slotsConcrete, List.all_cons, Bool.and_eq_true] at h
      cases hd with
      | none => simp only [mapSlots]; rw [ih (n + 1) h.2]
      | some v =>
          simp only [Option.getD_some] at h
          simp only [mapSlots]
          rw [jsResolve_concrete v h.1, ih (n + 1) h.2]

lemma serialResolveGo_promMap :
    ∀ (xs : List (Option JsVal)) (n : Nat),
      serialResolveGo (promMap xs) n = serialResolveGo xs n := by
  intro xs
  induction xs with
  | nil => intro n; rfl
  | cons hd tl ih =>
      intro n
      cases hd with
      | none =>
          have hcons : promMap (none :: tl) = none :: promMap tl := rfl
          rw [hcons]
          simp [serialResolveGo, ih]
      | some v =>
          have hcons : promMap (some v :: tl) = some (JsVal.promise v) :: promMap tl := rfl
          rw [hcons]
          simp [serialResolveGo, ih, jsResolve_promise]

lemma serialMapAF_promMap (view : List (Option JsVal))
    (f : JsVal → JsVal → Nat → List (Option JsVal) → JsVal) (t : JsVal) :
    serialMapAF (promMap view) f t = serialMapAF view f t := by
  unfold serialMapAF
  rw [serialResolveGo_promMap]

lemma mapSlots_promMap (g : Nat → JsVal → JsVal) :
    ∀ (xs : List (Option JsVal)) (n : Nat),
      mapSlots g (promMap xs) n = mapSlots (fun i v => g i (JsVal.promise v)) xs n := by
  intro xs
  induction xs with
  | nil => intro n; rfl
  | cons hd tl ih =>
      intro n
      cases hd with
      | none =>
          have hcons : promMap (none :: tl) = none :: promMap tl := rfl
          rw [hcons]
          simp [mapSlots, ih]
      | some v =>
          have hcons : promMap (some v :: tl) = some (JsVal.promise v) :: promMap tl := rfl
          rw [hcons]
          simp [mapSlots, ih]

lemma presentPairs_promMap :
    ∀ (xs : List (Option JsVal)) (n : Nat),
      presentPairs (promMap xs) n
        = (presentPairs xs n).map (fun p => (p.1, JsVal.promise p.2)) := by
  intro xs
  induction xs with
  | nil => intro n; rfl
  | cons hd tl ih =>
      intro n
      cases hd with
      | none =>
          have hcons : promMap (none :: tl) = none :: promMap tl := rfl
          rw [hcons]
          simp [presentPairs, ih]
      | some v =>
          have hcons : promMap (some v :: tl) = some (JsVal.promise v) :: promMap tl := rfl
          rw [hcons]
          simp [presentPairs, ih]

/-- C1: transforming an indexed sequence with `mapAF` — in either resolution
mode — yields a collection of the same length whose holes are exactly the
input's holes, and the callable is invoked exactly once per present slot
(with its resolved value, in ascending index order) and never for a hole; in
particular the spec example `transform([, ,1, ,2, , ,], n => n*2)` yields
`[, ,2, ,4, , ,]` of length 7 with exactly 2 invocations. -/
theorem c1_hole_preservation :
    (∀ (m : Bool) (view : List (Option JsVal))
        (f : JsVal → JsVal → Nat → List (Option JsVal) → JsVal) (t : JsVal),
      ∃ out, (mapAF m (JsVal.arr view) (Callable.fn f) t).1 = Except.ok out
        ∧ out.length = view.length
        ∧ (∀ i, (out.getD i none).isSome = (view.getD i none).isSome)
        ∧ invokePairs (mapAF m (JsVal.arr view) (Callable.fn f) t).2
            = (presentPairs view 0).map (fun p => (p.1, jsResolve p.2))
        ∧ (invokePairs (mapAF m (JsVal.arr view) (Callable.fn f) t).2).length
            = countPresent view)
    ∧ (∀ m, (mapAF m (JsVal.arr sparse7) (Callable.fn dblFn) JsVal.undef).1
        = Except.ok [none, none, some (JsVal.num 2), none, some (JsVal.num 4), none, none])
    ∧ (∀ m, (invokePairs (mapAF m (JsVal.arr sparse7) (Callable.fn dblFn) JsVal.undef).2).length
        = 2)
    ∧ sparse7.length = 7 := by
  refine ⟨?_, ?_, ?_, rfl⟩
  · intro m view f t
    refine ⟨_, mapAF_fst_closed m view f t, ?_, ?_, ?_, ?_⟩
    · exact mapSlots_length _ view 0
    · intro i
      rw [mapSlots_getD]
      cases view.getD i none <;> rfl
    · exact mapAF_snd_invokePairs m view f t
    · rw [mapAF_snd_invokePairs, List.length_map, presentPairs_length]
  · intro m
    cases m <;> rfl
  · intro m
    cases m <;> rfl

/-- C2 is false as stated: in SERIAL mode the step for index `i` does NOT
fully complete before any part of the step for index `i + 1` begins.  On the
collection `[P(1), P(2)]` of two deferred elements with the identity
callable, the serial trace is
resolveElem 0, resolveElem 1, invoke 0, resolveResult 0, invoke 1,
resolveResult 1 — the element of index 1 settles before the callable runs on
index 0 (the code resolves all elements via `serial(arr)` before the reduce
invokes any callback), so the trace's slot indices `[0,1,0,0,1,1]` are not
grouped in ascending step order as the claim requires. -/
theorem c2_counterexample :
    stepsDisjointAscending
      (mapAF true (JsVal.arr view2) (Callable.fn fIdent) JsVal.undef).2 = false
    ∧ ((mapAF true (JsVal.arr view2) (Callable.fn fIdent) JsVal.undef).2).map evIndex
        = [0, 1, 0, 0, 1, 1] :=
  ⟨rfl, rfl⟩

/-- C2 (amended): in SERIAL mode the processing has two phases, each in
strictly ascending index order over the present slots: first every present
element's own deferredness is resolved (index `i` settling before index
`i + 1` starts), and only then, for each present slot in ascending order, the
callable is invoked on the resolved element and its returned deferred value
resolved, the invocation-and-result step for one index completing before the
next index's invocation begins.  (Element `i + 1`'s resolution therefore
precedes the callable invocation for index `i`, contrary to the original
claim.) -/
theorem c2_serial_two_phase :
    ∀ (view : List (Option JsVal))
      (f : JsVal → JsVal → Nat → List (Option JsVal) → JsVal) (t : JsVal),
      (mapAF true (JsVal.arr view) (Callable.fn f) t).2
        = (presentPairs view 0).map (fun p => Ev.resolveElem p.1 (jsResolve p.2))
          ++ traceBlocks
              (fun i v => [Ev.invoke i v, Ev.resolveResult i (jsResolve (f t v i
                (mapSlots (fun _ v => jsResolve v) view 0)))])
              ((presentPairs view 0).map (fun p => (p.1, jsResolve p.2)))
      ∧ strictlyAscending ((presentPairs view 0).map Prod.fst) = true := by
  intro view f t
  constructor
  · rw [mapAF_arr_fn]
    simp only [if_true]
    exact serialMapAF_snd view f t
  · exact presentPairs_fst_ascending view 0

/-- C5: for every settled input that is not an eligible collection shape,
`mapAF` rejects (in either mode, whatever the callable) with a TypeError
whose message is exactly
"mapAF cannot be called on <receivedValue>, only on an Array or array-like
Object", where `<receivedValue>` is the default string coercion of the
rejected input. -/
theorem c5_shape_rejection :
    ∀ (m : Bool) (input : JsVal) (cb : Callable) (t : JsVal),
      permissiveIsArrayLike (jsResolve input) = false →
      (mapAF m input cb t).1 = Except.error (JsErr.typeError
        ("mapAF cannot be called on " ++ jsToString (jsResolve input)
          ++ ", only on an Array or array-like Object")) := by
  intro m input cb t h
  simp [mapAF, mapAFBody, h]

/-- Witness for C5 at the claim's three concrete inputs: the message embeds
`null`, `undefined` and `[object Object]` respectively. -/
theorem c5_shape_rejection_witness :
    permissiveIsArrayLike (jsResolve JsVal.null) = false
    ∧ (mapAF false JsVal.null (Callable.fn fIdent) JsVal.undef).1
        = Except.error (JsErr.typeError
            "mapAF cannot be called on null, only on an Array or array-like Object")
    ∧ permissiveIsArrayLike (jsResolve JsVal.undef) = false
    ∧ (mapAF false JsVal.undef (Callable.fn fIdent) JsVal.undef).1
        = Except.error (JsErr.typeError
            "mapAF cannot be called on undefined, only on an Array or array-like Object")
    ∧ permissiveIsArrayLike (jsResolve JsVal.obj) = false
    ∧ (mapAF false JsVal.obj (Callable.fn fIdent) JsVal.undef).1
        = Except.error (JsErr.typeError
            "mapAF cannot be called on [object Object], only on an Array or array-like Object") :=
  ⟨rfl, c5_shape_rejection false JsVal.null (Callable.fn fIdent) JsVal.undef rfl,
   rfl, c5_shape_rejection false JsVal.undef (Callable.fn fIdent) JsVal.undef rfl,
   rfl, c5_shape_rejection false JsVal.obj (Callable.fn fIdent) JsVal.undef rfl⟩

/-- C6: on an eligible collection with a non-invocable callable, `mapAF`
rejects — in either mode, with an empty event trace, i.e. before any element
resolution starts — with a TypeError whose message is exactly
"<calledValue> is not a function". -/
theorem c6_callable_rejection :
    ∀ (m : Bool) (input : JsVal) (w t : JsVal),
      permissiveIsArrayLike (jsResolve input) = true →
      mapAF m input (Callable.notFn w) t
        = (Except.error (JsErr.typeError (jsToString w ++ " is not a function")), []) := by
  intro m input w t h
  simp [mapAF, mapAFBody, h]

/-- Witness for C6: `transform([1,2,3])` with the missing callable
(`undefined`) rejects with message "undefined is not a function" and an empty
trace. -/
theorem c6_callable_rejection_witness :
    permissiveIsArrayLike (jsResolve (JsVal.arr nums123)) = true
    ∧ mapAF false (JsVal.arr nums123) (Callable.notFn JsVal.undef) JsVal.undef
        = (Except.error (JsErr.typeError "undefined is not a function"), []) :=
  ⟨rfl, c6_callable_rejection false (JsVal.arr nums123) JsVal.undef JsVal.undef rfl⟩

/-- C10: on an eligible collection with an invocable callable, `forEachAF`
resolves to `undefined` in both modes, regardless of the values the callable
returns. -/
theorem c10_foreach_undefined :
    ∀ (m : Bool) (input : JsVal)
      (f : JsVal → JsVal → Nat → List (Option JsVal) → JsVal) (t : JsVal),
      permissiveIsArrayLike (jsResolve input) = true →
      (forEachAF m input (Callable.fn f) t).1 = Except.ok JsVal.undef := by
  intro m input f t h
  cases m <;> simp [forEachAF, forEachAFBody, h]

/-- Witness for C10 with a callable returning non-`undefined` values, in both
modes. -/
theorem c10_foreach_undefined_witness :
    permissiveIsArrayLike (jsResolve (JsVal.arr nums123)) = true
    ∧ (forEachAF false (JsVal.arr nums123) (Callable.fn dblFn) JsVal.undef).1
        = Except.ok JsVal.undef
    ∧ (forEachAF true (JsVal.arr nums123) (Callable.fn dblFn) JsVal.undef).1
        = Except.ok JsVal.undef :=
  ⟨rfl, c10_foreach_undefined false (JsVal.arr nums123) dblFn JsVal.undef rfl,
   c10_foreach_undefined true (JsVal.arr nums123) dblFn JsVal.undef rfl⟩

/-- C3 is false as stated: on the eligible dense collection
`[Promise.resolve(1)]` with the pure callable `(v, i, arr) => arr`, PARALLEL
and SERIAL resolution yield different final collections, because the
collection argument passed to the callable is the original view in parallel
mode but the element-resolved view in serial mode. -/
theorem c3_counterexample :
    (mapAF false (JsVal.arr pm1) (Callable.fn fArrObs) JsVal.undef).1
      ≠ (mapAF true (JsVal.arr pm1) (Callable.fn fArrObs) JsVal.undef).1 := by
  have h1 : (mapAF false (JsVal.arr pm1) (Callable.fn fArrObs) JsVal.undef).1
      = Except.ok [some (JsVal.arr [some (JsVal.promise (JsVal.num 1))])] := rfl
  have h2 : (mapAF true (JsVal.arr pm1) (Callable.fn fArrObs) JsVal.undef).1
      = Except.ok [some (JsVal.arr [some (JsVal.num 1)])] := rfl
  rw [h1, h2]
  simp

/-- C3 (amended): PARALLEL and SERIAL resolution of `mapAF` yield identical
final collections (slot `i` of the output always coming from slot `i` of the
input in both modes) whenever the collection's elements are all concrete
(non-deferred) values, or — for arbitrary collections, deferred elements
included — whenever the callable does not inspect its collection argument.
The original claim fails only for callables that observe the collection
argument on a collection with deferred elements. -/
theorem c3_modes_agree :
    (∀ (view : List (Option JsVal))
        (f : JsVal → JsVal → Nat → List (Option JsVal) → JsVal) (t : JsVal),
      slotsConcrete view = true →
        (mapAF false (JsVal.arr view) (Callable.fn f) t).1
          = (mapAF true (JsVal.arr view) (Callable.fn f) t).1)
    ∧ (∀ (view : List (Option JsVal)) (g : JsVal → JsVal → Nat → JsVal) (t : JsVal),
        (mapAF false (JsVal.arr view) (Callable.fn (lift3 g)) t).1
          = (mapAF true (JsVal.arr view) (Callable.fn (lift3 g)) t).1) := by
  constructor
  · intro view f t h
    rw [mapAF_fst_closed, mapAF_fst_closed]
    have h3 : thirdArg true view = view := by
      simp [thirdArg, mapSlots_resolve_concrete view 0 h]
    have h4 : thirdArg false view = view := rfl
    rw [h3, h4]
  · intro view g t
    rw [mapAF_fst_closed, mapAF_fst_closed]
    simp [lift3]

/-- Witness for C3 (amended), first part: on the concrete dense collection
`[1, 2]` the two modes agree, even for a callable observing the collection
argument. -/
theorem c3_modes_agree_witness :
    slotsConcrete [some (JsVal.num 1), some (JsVal.num 2)] = true
    ∧ (mapAF false (JsVal.arr [some (JsVal.num 1), some (JsVal.num 2)])
          (Callable.fn fArrObs) JsVal.undef).1
        = (mapAF true (JsVal.arr [some (JsVal.num 1), some (JsVal.num 2)])
            (Callable.fn fArrObs) JsVal.undef).1 :=
  ⟨rfl, c3_modes_agree.1 [some (JsVal.num 1), some (JsVal.num 2)] fArrObs JsVal.undef rfl⟩

/-- C4: pipeline construction accepts any value with no validation, and
chaining `mapAF` never throws synchronously from the chaining call itself —
for every input (eligible or not) and every non-invocable callable the
TypeMismatchError surfaces only as a rejection of the new stage's deferred
value. -/
theorem c4_no_sync_throw :
    (∀ v, AsyncAFmk v = { value := Except.ok v, inSeries := false })
    ∧ (∀ (p : Pipeline) (cb : Callable) (t : JsVal), ∃ q, mapAFchain p cb t = Except.ok q)
    ∧ (∀ (v w t : JsVal), ∃ e, mapAFchain (AsyncAFmk v) (Callable.notFn w) t
        = Except.ok { value := Except.error e, inSeries := false }) := by
  refine ⟨fun v => rfl, fun p cb t => ⟨_, rfl⟩, ?_⟩
  intro v w t
  cases h : permissiveIsArrayLike (jsResolve v)
  · exact ⟨JsErr.typeError ("mapAF cannot be called on " ++ jsToString (jsResolve v)
      ++ ", only on an Array or array-like Object"),
      by simp [mapAFchain, AsyncAFmk, mapAFBody, h, Except.map]⟩
  · exact ⟨JsErr.typeError (jsToString w ++ " is not a function"),
      by simp [mapAFchain, AsyncAFmk, mapAFBody, h, Except.map]⟩

/-- C7: each invocation receives the resolved element as first argument and
its index as second (the invocation list equals the present slots with their
resolved values, in input order, in both modes); the supplied invocation
context is passed through to every invocation (a callable returning its
context fills every present slot with that context, resolved); and the spec
example `transform([1,2,3], (n,i,arr) => n + (arr[i-1]||0))` yields
`[1,3,5]` in both modes. -/
theorem c7_invocation_arguments :
    (∀ (m : Bool) (view : List (Option JsVal))
        (f : JsVal → JsVal → Nat → List (Option JsVal) → JsVal) (t : JsVal),
      invokePairs (mapAF m (JsVal.arr view) (Callable.fn f) t).2
        = (presentPairs view 0).map (fun p => (p.1, jsResolve p.2)))
    ∧ (∀ (m : Bool) (view : List (Option JsVal)) (t : JsVal),
      (mapAF m (JsVal.arr view) (Callable.fn (fun th _ _ _ => th)) t).1
        = Except.ok (mapSlots (fun _ _ => jsResolve t) view 0))
    ∧ (∀ m, (mapAF m (JsVal.arr nums123) (Callable.fn c7fn) JsVal.undef).1
        = Except.ok [some (JsVal.num 1), some (JsVal.num 3), some (JsVal.num 5)]) := by
  refine ⟨mapAF_snd_invokePairs, ?_, ?_⟩
  · intro m view t
    rw [mapAF_fst_closed]
  · intro m
    cases m <;> rfl

/-- C8 is false as stated: in SERIAL mode the collection argument passed to
the callable is not the original unresolved view.  On `[Promise.resolve(1)]`
with the callable `(v, i, arr) => arr`, the output slot holds the
element-resolved view `[1]`, not the original view `[Promise.resolve(1)]`. -/
theorem c8_counterexample :
    (mapAF true (JsVal.arr pm1) (Callable.fn fArrObs) JsVal.undef).1
        ≠ Except.ok [some (JsVal.arr pm1)]
    ∧ (mapAF true (JsVal.arr pm1) (Callable.fn fArrObs) JsVal.undef).1
        = Except.ok [some (JsVal.arr [some (JsVal.num 1)])] := by
  constructor
  · have h2 : (mapAF true (JsVal.arr pm1) (Callable.fn fArrObs) JsVal.undef).1
        = Except.ok [some (JsVal.arr [some (JsVal.num 1)])] := rfl
    rw [h2]
    simp [pm1]
  · rfl

/-- C8 (amended): the collection argument passed to each invocation is the
original unresolved view in PARALLEL mode, but in SERIAL mode it is the
element-resolved view (the serial reduce's array parameter shadows the
original): the result of `mapAF` is exactly the present-slot map of
`fun i v => jsResolve (f t (jsResolve v) i (thirdArg m view))`, where
`thirdArg false view` is the original view and `thirdArg true view` is the
element-resolved view. -/
theorem c8_third_argument :
    ∀ (m : Bool) (view : List (Option JsVal))
      (f : JsVal → JsVal → Nat → List (Option JsVal) → JsVal) (t : JsVal),
      (mapAF m (JsVal.arr view) (Callable.fn f) t).1
        = Except.ok (mapSlots
            (fun i v => jsResolve (f t (jsResolve v) i (thirdArg m view))) view 0)
      ∧ thirdArg false view = view
      ∧ thirdArg true view = mapSlots (fun _ v => jsResolve v) view 0 := by
  intro m view f t
  exact ⟨mapAF_fst_closed m view f t, rfl, rfl⟩

/-- C9 is false as stated: in PARALLEL mode a callable that observes the
collection argument distinguishes the concrete collection `[1]` from its
promise-wrapped counterpart `[Promise.resolve(1)]`, because the original
(unresolved) view is passed through. -/
theorem c9_counterexample :
    (mapAF false (JsVal.arr (promMap [some (JsVal.num 1)]))
        (Callable.fn fArrObs) JsVal.undef).1
      ≠ (mapAF false (JsVal.arr [some (JsVal.num 1)])
          (Callable.fn fArrObs) JsVal.undef).1 := by
  have h1 : (mapAF false (JsVal.arr (promMap [some (JsVal.num 1)]))
        (Callable.fn fArrObs) JsVal.undef).1
      = Except.ok [some (JsVal.arr [some (JsVal.promise (JsVal.num 1))])] := rfl
  have h2 : (mapAF false (JsVal.arr [some (JsVal.num 1)])
        (Callable.fn fArrObs) JsVal.undef).1
      = Except.ok [some (JsVal.arr [some (JsVal.num 1)])] := rfl
  rw [h1, h2]
  simp

/-- C9 (amended): replacing every element of a collection by an
already-settled deferred value of itself changes nothing observable — result
and full event trace — in SERIAL mode for every callable, and in PARALLEL
mode for every callable that does not inspect its collection argument.  (The
original unrestricted claim fails only for a parallel-mode callable observing
the collection argument, which receives the original view and can see the
wrappers.) -/
theorem c9_round_trip :
    (∀ (view : List (Option JsVal)) (cb : Callable) (t : JsVal),
      mapAF true (JsVal.arr (promMap view)) cb t = mapAF true (JsVal.arr view) cb t)
    ∧ (∀ (view : List (Option JsVal)) (g : JsVal → JsVal → Nat → JsVal) (t : JsVal),
      mapAF false (JsVal.arr (promMap view)) (Callable.fn (lift3 g)) t
        = mapAF false (JsVal.arr view) (Callable.fn (lift3 g)) t) := by
  constructor
  · intro view cb t
    cases cb with
    | notFn w => rfl
    | fn f =>
        rw [mapAF_arr_fn, mapAF_arr_fn]
        simp only [if_true]
        rw [serialMapAF_promMap]
  · intro view g t
    rw [Prod.ext_iff]
    constructor
    · rw [mapAF_fst_closed, mapAF_fst_closed]
      rw [thirdArg, thirdArg]
      simp only [Bool.false_eq_true, if_false]
      rw [mapSlots_promMap]
      simp [lift3, jsResolve_promise]
    · rw [mapAF_arr_fn, mapAF_arr_fn]
      simp only [Bool.false_eq_true, if_false]
      rw [parallelMap_snd, parallelMap_snd, presentPairs_promMap]
      simp only [lift3, List.map_map, Function.comp_def, jsResolve_promise]
